import Mathlib

/-!
Shallow embedding of the license-resolution pipeline of the
`go-license-scanner` repository (package `src/license_scanner/`):
the report-entry data model and JSON cache (`cache.py`), the acceptor
chain (`acceptors.py`), the dependency-scanner merge (`dependancies.py`)
and the recognizer chain (`recognizers.py`).

Python `None`-able strings are modelled as `Option String`; Python string
truthiness (`if s:`) is `s ≠ None ∧ s ≠ ""`.  Fallible operations return
`Except`/`Option`.  Logging calls are modelled, where a claim mentions
them, as an explicit list of emitted log levels.
-/

namespace LicenseScanner

/-- Embedding of `LicenseReportEntry` from `cache.py` lines 16-26: a dataclass with seven
optional string fields, every one defaulting to Python `None`.  Note that
this (the version committed under `src/license_scanner/`) has **no**
`acceptable` and no `acceptor_name` field. -/
structure LicenseReportEntry where
  package : Option String := none
  license_name : Option String := none
  license_url : Option String := none
  license_encoded : Option String := none
  license_recognized_at : Option String := none
  dependancy_scanner_name : Option String := none
  license_recognizer_name : Option String := none
deriving DecidableEq

/-- JSON values that occur in the cache file: the entries only ever hold
strings or `null` in their fields. -/
inductive JVal where
  | null : JVal
  | str : String → JVal
deriving DecidableEq

/-- Serialization of an optional string field: Python `None` becomes JSON
`null`, a string stays itself. -/
def jval : Option String → JVal
  | none => JVal.null
  | some s => JVal.str s

/-- A JSON object, as an ordered key/value list (Python `dict`). -/
abbrev JDict := List (String × JVal)

/-- Embedding of `dataclasses.asdict(entry)`: an object with exactly the seven fields,
in declaration order, `None` fields serialized as `null`. -/
def asdict (e : LicenseReportEntry) : JDict :=
  [ ("package", jval e.package),
    ("license_name", jval e.license_name),
    ("license_url", jval e.license_url),
    ("license_encoded", jval e.license_encoded),
    ("license_recognized_at", jval e.license_recognized_at),
    ("dependancy_scanner_name", jval e.dependancy_scanner_name),
    ("license_recognizer_name", jval e.license_recognizer_name) ]

/-- Python `d.get(k)` on a JSON object (first binding wins, as in a dict). -/
def dictGet (d : JDict) (k : String) : Option JVal :=
  match d with
  | [] => none
  | (k', v) :: rest => if k' = k then some v else dictGet rest k

/-- Reading one keyword argument in `LicenseReportEntry(**jsn)`: a missing
key falls back to the dataclass default `None`; `null` is Python `None`. -/
def optOfJ : Option JVal → Option String
  | some (JVal.str s) => some s
  | _ => none

/-- The seven field names of the dataclass. -/
def entryFields : List String :=
  [ "package", "license_name", "license_url", "license_encoded",
    "license_recognized_at", "dependancy_scanner_name",
    "license_recognizer_name" ]

/-- Embedding of `LicenseReportEntry(**jsn)` (`cache.py` line 69): builds an entry from a
JSON object.  A key outside the dataclass fields makes the Python
constructor raise `TypeError`; that failure is modelled as `none`. -/
def fromDict (d : JDict) : Option LicenseReportEntry :=
  if d.all (fun kv => kv.1 ∈ entryFields) then
    some { package := optOfJ (dictGet d "package"),
           license_name := optOfJ (dictGet d "license_name"),
           license_url := optOfJ (dictGet d "license_url"),
           license_encoded := optOfJ (dictGet d "license_encoded"),
           license_recognized_at := optOfJ (dictGet d "license_recognized_at"),
           dependancy_scanner_name := optOfJ (dictGet d "dependancy_scanner_name"),
           license_recognizer_name := optOfJ (dictGet d "license_recognizer_name") }
  else none

/-- Lookup in the `_resolved` Python dict (keys are the raw `package`
values, which may be `None`, hence keys of type `JVal`). -/
def assocGet (k : JVal) : List (JVal × JDict) → Option JDict
  | [] => none
  | (k', v) :: rest => if k' = k then some v else assocGet k rest

/-- Embedding of `self._resolved[key] = jsn`: a Python dict assignment keeps the
position of an existing key and appends a new key at the end. -/
def assocUpdate (k : JVal) (v : JDict) : List (JVal × JDict) → List (JVal × JDict)
  | [] => [(k, v)]
  | (k', v') :: rest =>
    if k' = k then (k, v) :: rest else (k', v') :: assocUpdate k v rest

/-- The `'resolved-licenses'` array of the cache file. -/
abbrev CacheFile := List JDict

/-- The key that `_read_cache_from_file` uses for a loaded object:
`lic['package']` (`cache.py` line 96). -/
def dictKey (d : JDict) : JVal :=
  (dictGet d "package").getD JVal.null

/-- In-memory state of `JsonFileLicenseCache`: the `_resolved` dict (in
insertion order) and the `_has_changed` dirty flag. -/
structure JsonFileLicenseCache where
  resolved : List (JVal × JDict)
  hasChanged : Bool
deriving DecidableEq

/-- Embedding of `JsonFileLicenseCache.read` (`cache.py` lines 67-69): dict lookup by
package, then `LicenseReportEntry(**jsn)`.  The Python parameter is
annotated `str` but `None` flows in at runtime, so the key is optional. -/
def JsonFileLicenseCache.read (c : JsonFileLicenseCache) (p : Option String) :
    Option LicenseReportEntry :=
  match assocGet (jval p) c.resolved with
  | none => none
  | some d => fromDict d

/-- Embedding of `JsonFileLicenseCache.write` (`cache.py` lines 71-74): unconditionally
serializes the entry, stores it under key `entry.package` (a `None`
package is a legal dict key) and sets the dirty flag.  No exception of
any kind is raised. -/
def JsonFileLicenseCache.write (c : JsonFileLicenseCache) (e : LicenseReportEntry) :
    JsonFileLicenseCache :=
  { resolved := assocUpdate (jval e.package) (asdict e) c.resolved,
    hasChanged := true }

/-- Python string comparison, on the character lists: lexicographic by
code point. -/
def listCharLE : List Char → List Char → Bool
  | [], _ => true
  | _ :: _, [] => false
  | a :: as, b :: bs =>
    if a.toNat < b.toNat then true
    else if b.toNat < a.toNat then false
    else listCharLE as bs

/-- Embedding of `a <= b` on Python strings. -/
def strLE (a b : String) : Bool := listCharLE a.data b.data

/-- Sort key used by `update_cache_file`: `lambda lic: lic['package']`.
Python compares the raw string values; a `None` package would raise
`TypeError` there, so the string default is only ever reached in states
where the real program has already crashed. -/
def dictPkgKey (d : JDict) : String :=
  match dictGet d "package" with
  | some (JVal.str s) => s
  | _ => ""

/-- Comparison relation of the cache-file sort. -/
def dictLE (a b : JDict) : Prop := strLE (dictPkgKey a) (dictPkgKey b) = true

instance : DecidableRel dictLE := fun a b =>
  inferInstanceAs (Decidable (strLE (dictPkgKey a) (dictPkgKey b) = true))

/-- Embedding of `JsonFileLicenseCache.update_cache_file` (`cache.py` lines 76-86):
if the dirty flag is set, writes the file (the `'resolved-licenses'`
array: all dict values sorted by package) and returns `True`; otherwise
writes nothing and returns `False`.  The written file, when any, is the
second component. -/
def JsonFileLicenseCache.update_cache_file (c : JsonFileLicenseCache) :
    Bool × Option CacheFile :=
  if c.hasChanged then
    (true, some (List.insertionSort dictLE (c.resolved.map Prod.snd)))
  else (false, none)

/-- A sequence of keyed dict insertions, in order (the loop shape shared
by `_read_cache_from_file` and repeated `write` calls). -/
def foldIns (L : List (JVal × JDict)) (m : List (JVal × JDict)) :
    List (JVal × JDict) :=
  L.foldl (fun acc kv => assocUpdate kv.1 kv.2 acc) m

/-- Embedding of `_read_cache_from_file` (`cache.py` lines 88-98): a missing file gives
an empty dict; otherwise every object of the `'resolved-licenses'` array
is stored under its own `'package'` value. -/
def readCacheFromFile (f : Option CacheFile) : List (JVal × JDict) :=
  match f with
  | none => []
  | some lics => foldIns (lics.map (fun d => (dictKey d, d))) []

/-- Constructing a `JsonFileLicenseCache` (`cache.py` lines 60-65): load
the file (if any) and clear the dirty flag. -/
def JsonFileLicenseCache.fromFile (f : Option CacheFile) : JsonFileLicenseCache :=
  { resolved := readCacheFromFile f, hasChanged := false }

/-- A fresh cache over a file that does not exist yet. -/
def emptyCache : JsonFileLicenseCache := JsonFileLicenseCache.fromFile none

/-- Writing a list of entries in order. -/
def writeAll (entries : List LicenseReportEntry) (c : JsonFileLicenseCache) :
    JsonFileLicenseCache :=
  entries.foldl JsonFileLicenseCache.write c

/-! ### Basic lemmas about the JSON layer -/

theorem jval_injective : Function.Injective jval := by
  intro a b h
  cases a <;> cases b <;> simp [jval] at h <;> simp [h]

theorem optOfJ_jval (o : Option String) : optOfJ (some (jval o)) = o := by
  cases o <;> rfl

/-- Serialization round trip at the level of one entry: rebuilding from
`asdict` reproduces every field, set or absent. -/
theorem fromDict_asdict (e : LicenseReportEntry) : fromDict (asdict e) = some e := by
  simp [fromDict, asdict, dictGet, entryFields, optOfJ_jval]

/-! ### Acceptors (`acceptors.py`) -/

/-- Python string truthiness of an optional string: `if s:` is taken when
the value is neither `None` nor the empty string. -/
def strTruthy : Option String → Bool
  | none => false
  | some s => !(s = "")

/-- One element of the `allowedLicenses` array of the acceptor's JSON
configuration: a license name plus an optional package-name glob
(`moduleName` may be missing). -/
structure AllowedLicense where
  moduleLicense : String
  moduleName : Option String := none
deriving DecidableEq

/-- Semantics of the regex that `_pattern_matches` builds
(`acceptors.py` line 83): the pattern is rewritten by
`replace('.', '\\.').replace('*', '.*')` and run with `re.fullmatch`.
In the resulting regex every `.` of the pattern is an escaped literal
dot, every `*` is `.*` (any run of characters), and every other pattern
character stands for itself; the match must cover the whole string.
This function is that matcher, on the pattern and subject as character
lists.  (Patterns holding further regex metacharacters, and `.*`'s
refusal of newlines, are outside the behavior the configuration format
uses and are not modelled.) -/
def globMatch (p : List Char) (s : List Char) : Bool :=
  match p with
  | [] => s.isEmpty
  | c :: ps =>
    if c = '*' then
      (List.range (s.length + 1)).any (fun n => globMatch ps (s.drop n))
    else
      match s with
      | [] => false
      | c' :: s' => c = c' && globMatch ps s'

/-- Embedding of `JsonFileLicenseAcceptor._pattern_matches` (`acceptors.py` lines
77-86): a missing or empty pattern matches everything; a pattern equal to
the package matches; otherwise the translated regex must fullmatch.  The
package reaching the regex is a string whenever the caller's entry has
one (a `None` package with a nonempty pattern would raise in Python; the
empty-string default is only reached there). -/
def patternMatches (package : Option String) (pattern : Option String) : Bool :=
  match pattern with
  | none => true
  | some pat =>
    if pat = "" then true
    else if package = some pat then true
    else globMatch pat.toList (package.getD "").toList

/-- Embedding of `JsonFileLicenseAcceptor._entry_matches` (`acceptors.py` lines 69-75):
the entry's license name must equal the rule's `moduleLicense` and the
package must pass the rule's pattern. -/
def entryMatches (e : LicenseReportEntry) (al : AllowedLicense) : Bool :=
  e.license_name = some al.moduleLicense && patternMatches e.package al.moduleName

/-- The `self._allowed_licenses` dict lookup (`acceptors.py` lines 54-67):
`_get_allowed_licenses_from_json` groups the configured rules by their
`moduleLicense`, keeping order, so looking a name up yields exactly the
configured rules carrying that name, in configuration order. -/
def allowedFor (rules : List AllowedLicense) (name : String) : List AllowedLicense :=
  rules.filter (fun al => al.moduleLicense = name)

/-- Embedding of `JsonFileLicenseAcceptor.accept_or_reject` (`acceptors.py` lines
44-52): with a truthy license name, `True` as soon as one rule of the
name's group matches the entry and otherwise `False`; with no (or an
empty) license name, `None`.  The acceptor configuration is the parsed
`allowedLicenses` rule list. -/
def acceptOrReject (rules : List AllowedLicense) (e : LicenseReportEntry) :
    Option Bool :=
  match e.license_name with
  | none => none
  | some s =>
    if s = "" then none
    else some ((allowedFor rules s).any (fun al => entryMatches e al))

/-- An acceptor, at the interface `accept_or_reject` presents to
`accept_all`: a decision function into `{True, False, None}`.  The
acceptors the program configures are all `JsonFileLicenseAcceptor`s,
i.e. `acceptOrReject rules` for some rule list. -/
abbrev Acceptor := LicenseReportEntry → Option Bool

/-- Embedding of `_try_all_acceptors` (`acceptors.py` lines 101-107): a `None` acceptor
list yields `False`; otherwise the first non-`None` decision is returned,
and `False` when every acceptor abstains. -/
def tryAllAcceptors (e : LicenseReportEntry) (acceptors : Option (List Acceptor)) :
    Bool :=
  match acceptors with
  | none => false
  | some as =>
    match as.findSome? (fun a => a e) with
    | some r => r
    | none => false

/-- Embedding of `accept_all` (`acceptors.py` lines 89-98): collects, in order, every
entry that did not receive a `True` decision. -/
def accept_all (entries : List LicenseReportEntry)
    (acceptors : Option (List Acceptor)) : List LicenseReportEntry :=
  entries.filter (fun e => !tryAllAcceptors e acceptors)

/-- The acceptance stage as `scanner.scan` runs it (`scanner.py` lines
36-40): the full entry list flows unchanged into reporting alongside
`accept_all`'s unaccepted sublist. -/
def acceptanceStage (entries : List LicenseReportEntry)
    (acceptors : Option (List Acceptor)) :
    List LicenseReportEntry × List LicenseReportEntry :=
  (entries, accept_all entries acceptors)

/-! ### Claim theorems about the acceptor stage -/

/-- C10: with acceptors `None` or `[]`, `accept_all` returns the whole
input list as the unaccepted result and no entry is touched (the result
is the input list itself). -/
theorem accept_all_no_acceptors_returns_all (entries : List LicenseReportEntry) :
    accept_all entries none = entries ∧ accept_all entries (some []) = entries := by
  constructor <;> simp [accept_all, tryAllAcceptors]

/-- C4: under every `JsonFileLicenseAcceptor` configuration list (the only
acceptor the program ships), an entry with no recognized license name is
always part of the unaccepted list that `accept_all` returns — every such
acceptor abstains on it and an abstained entry counts as unaccepted. -/
theorem unrecognized_entries_never_accepted
    (cfgs : List (List AllowedLicense)) (entries : List LicenseReportEntry)
    (e : LicenseReportEntry) (he : e ∈ entries) (hname : e.license_name = none) :
    e ∈ accept_all entries (some (cfgs.map acceptOrReject)) := by
  have hnone : (cfgs.map acceptOrReject).findSome? (fun a => a e) = none := by
    induction cfgs with
    | nil => rfl
    | cons cfg rest ih =>
      simp only [List.map_cons, List.findSome?_cons]
      rw [show acceptOrReject cfg e = none by simp [acceptOrReject, hname]]
      exact ih
  have h : tryAllAcceptors e (some (cfgs.map acceptOrReject)) = false := by
    simp [tryAllAcceptors, hnone]
  simp [accept_all, List.mem_filter, he, h]

/-- Witness for C4 at a concrete input: a single unrecognized entry and a
one-rule configuration. -/
theorem unrecognized_entries_never_accepted_witness :
    ({ package := some "u" } : LicenseReportEntry) ∈
      [({ package := some "u" } : LicenseReportEntry)] ∧
    ({ package := some "u" } : LicenseReportEntry).license_name = none ∧
    ({ package := some "u" } : LicenseReportEntry) ∈
      accept_all [{ package := some "u" }]
        (some ([[{ moduleLicense := "MIT" }]].map acceptOrReject)) :=
  ⟨by simp, rfl,
    unrecognized_entries_never_accepted [[{ moduleLicense := "MIT" }]]
      [{ package := some "u" }] { package := some "u" } (by simp) rfl⟩

/-- C1 (evidence for a code bug): in this snapshot the acceptance stage
records nothing on the entries.  `LicenseReportEntry` (`cache.py`) has no
`acceptable`/`acceptor_name` field, `accept_all` only selects a sublist,
and the full list reaching the reporting stage is the input list itself —
no acceptance decision is carried on any entry, accepted or rejected. -/
theorem acceptance_stage_records_nothing (entries : List LicenseReportEntry)
    (acceptors : Option (List Acceptor)) :
    (acceptanceStage entries acceptors).1 = entries ∧
    List.Sublist (accept_all entries acceptors) entries :=
  ⟨rfl, List.filter_sublist entries⟩

/-- C6: the `JsonFileLicenseAcceptor` decision.  With a (nonempty) license
name: `True` when some configured rule carries that license name and its
pattern (when present) glob-matches the package, `False` otherwise —
never unknown.  With no license name: unknown (`None`).  (The definition
of `acceptOrReject` also shows that an empty-string license name behaves
like an absent one, Python truthiness.) -/
theorem jsonFileAcceptor_decision (rules : List AllowedLicense)
    (e : LicenseReportEntry) (s : String)
    (hname : e.license_name = some s) (hs : s ≠ "") :
    ((∃ al ∈ rules, al.moduleLicense = s ∧
        patternMatches e.package al.moduleName = true) →
      acceptOrReject rules e = some true) ∧
    ((∀ al ∈ rules, al.moduleLicense = s →
        patternMatches e.package al.moduleName = false) →
      acceptOrReject rules e = some false) ∧
    (∀ e' : LicenseReportEntry, e'.license_name = none →
      acceptOrReject rules e' = none) := by
  refine ⟨?_, ?_, ?_⟩
  · rintro ⟨al, hal, hlic, hpat⟩
    simp only [acceptOrReject, hname, if_neg hs]
    congr 1
    rw [List.any_eq_true]
    exact ⟨al, List.mem_filter.mpr ⟨hal, by simp [hlic]⟩,
      by simp [entryMatches, hname, hlic, hpat]⟩
  · intro hall
    simp only [acceptOrReject, hname, if_neg hs]
    congr 1
    rw [List.any_eq_false]
    intro al hal
    have h1 := (List.mem_filter.mp hal).1
    have h2 : al.moduleLicense = s := by
      simpa using (List.mem_filter.mp hal).2
    simp [entryMatches, hall al h1 h2]
  · intro e' h
    simp [acceptOrReject, h]

/-- Witness for C6, including both scenario checks of the specification:
rule `{license "unknown", pattern "ei*"}` accepts package `eight`;
rule `{license "unknown", pattern "nine.a*"}` rejects package `ninexaaa`
(the literal `.` does not match `x`); an entry carrying no license name
is left unknown. -/
theorem jsonFileAcceptor_decision_witness :
    acceptOrReject [{ moduleLicense := "unknown", moduleName := some "ei*" }]
      { package := some "eight", license_name := some "unknown" } = some true ∧
    acceptOrReject [{ moduleLicense := "unknown", moduleName := some "nine.a*" }]
      { package := some "ninexaaa", license_name := some "unknown" } = some false ∧
    acceptOrReject [{ moduleLicense := "unknown", moduleName := some "ei*" }]
      { package := some "other" } = none :=
  ⟨(jsonFileAcceptor_decision _ _ "unknown" rfl (by decide)).1
      ⟨{ moduleLicense := "unknown", moduleName := some "ei*" },
        by simp, rfl, by decide⟩,
    (jsonFileAcceptor_decision _ _ "unknown" rfl (by decide)).2.1
      (by intro al hal _; simp at hal; subst hal; decide),
    (jsonFileAcceptor_decision
        [{ moduleLicense := "unknown", moduleName := some "ei*" }]
        { package := some "eight", license_name := some "unknown" }
        "unknown" rfl (by decide)).2.2 _ rfl⟩

/-! ### Dependency scanners (`dependancies.py`) -/

/-- A dependency scanner, at the interface `scan_all` uses: the
`can_handle` test and the `scan` that produces report entries for a
directory. -/
structure DependancyScanner where
  canHandle : String → Bool
  scan : String → List LicenseReportEntry

/-- Sort key of `scan_all`'s final `sorted(..., key=attrgetter('package'))`:
the package string.  (A `None` package would make the Python comparison
raise `TypeError`; the empty-string default is only reached in such crash
states.) -/
def pkgKey (e : LicenseReportEntry) : String := e.package.getD ""

/-- The comparison `scan_all` sorts by: ascending package string. -/
def entryLE (a b : LicenseReportEntry) : Prop := strLE (pkgKey a) (pkgKey b) = true

instance : DecidableRel entryLE := fun a b =>
  inferInstanceAs (Decidable (strLE (pkgKey a) (pkgKey b) = true))

theorem listCharLE_total (x y : List Char) :
    listCharLE x y = true ∨ listCharLE y x = true := by
  induction x generalizing y with
  | nil => left; rfl
  | cons a as ih =>
    cases y with
    | nil => right; rfl
    | cons b bs =>
      simp only [listCharLE]
      rcases Nat.lt_trichotomy a.toNat b.toNat with h | h | h
      · left; simp [h]
      · rcases ih bs with h' | h' <;> simp [h, Nat.lt_irrefl, h']
      · right; simp [h]

theorem listCharLE_trans (x : List Char) : ∀ y z : List Char,
    listCharLE x y = true → listCharLE y z = true → listCharLE x z = true := by
  induction x with
  | nil => intro y z _ _; rfl
  | cons a as ih =>
    intro y z h1 h2
    cases y with
    | nil => simp [listCharLE] at h1
    | cons b bs =>
      cases z with
      | nil => simp [listCharLE] at h2
      | cons c cs =>
        simp only [listCharLE] at h1 h2 ⊢
        split_ifs at h1 h2 ⊢ <;>
          first
            | rfl
            | omega
            | exact ih bs cs h1 h2

instance : IsTotal LicenseReportEntry entryLE :=
  ⟨fun a b => listCharLE_total (pkgKey a).data (pkgKey b).data⟩

instance : IsTrans LicenseReportEntry entryLE :=
  ⟨fun a b c h1 h2 =>
    listCharLE_trans (pkgKey a).data (pkgKey b).data (pkgKey c).data h1 h2⟩

/-- Embedding of `_add_new_entries` (`dependancies.py` lines 102-106): each new entry
is appended unless its package is already present, so the first writer of
a package wins.  The Python `entries` dict (insertion-ordered, keyed by
`item.package`) is modelled as the list of its values, whose packages
stay pairwise distinct. -/
def addNewEntries (entries : List LicenseReportEntry)
    (newEntries : List LicenseReportEntry) : List LicenseReportEntry :=
  newEntries.foldl
    (fun acc item =>
      if acc.any (fun x => x.package == item.package) then acc
      else acc ++ [item])
    entries

/-- Embedding of `scan_all` (`dependancies.py` lines 84-99): every scanner whose
`can_handle` accepts the directory contributes its scan, merged
first-writer-wins; with no applicable scanner a `RuntimeError` is raised;
the merged values are returned sorted by package. -/
def scan_all (directory : String) (scanners : List DependancyScanner) :
    Except String (List LicenseReportEntry) :=
  let st := scanners.foldl
    (fun (st : Bool × List LicenseReportEntry) sc =>
      if sc.canHandle directory then (true, addNewEntries st.2 (sc.scan directory))
      else st)
    (false, [])
  if st.1 then Except.ok (List.insertionSort entryLE st.2)
  else Except.error "Could not find a scanner that will handle this directory"

/-! ### Lemmas about the scanner merge -/

theorem addNewEntries_append (acc l₁ l₂ : List LicenseReportEntry) :
    addNewEntries acc (l₁ ++ l₂) = addNewEntries (addNewEntries acc l₁) l₂ :=
  List.foldl_append _ _ _ _

/-- The fold inside `scan_all`, characterized: the flag records whether an
applicable scanner exists, and the merged values are the first-writer
merge of the applicable scans in configured order. -/
theorem scan_all_foldl (d : String) (scanners : List DependancyScanner)
    (st : Bool × List LicenseReportEntry) :
    scanners.foldl
      (fun (st : Bool × List LicenseReportEntry) sc =>
        if sc.canHandle d then (true, addNewEntries st.2 (sc.scan d))
        else st)
      st =
    (st.1 || scanners.any (fun sc => sc.canHandle d),
     addNewEntries st.2
       (((scanners.filter (fun sc => sc.canHandle d)).map
          (fun sc => sc.scan d)).flatten)) := by
  induction scanners generalizing st with
  | nil => simp [addNewEntries]
  | cons sc rest ih =>
    by_cases h : sc.canHandle d = true
    · simp only [List.foldl_cons, h, if_pos, List.any_cons, List.filter_cons,
        List.map_cons, List.flatten_cons]
      rw [ih]
      simp [h, addNewEntries_append]
    · simp only [List.foldl_cons, h, if_neg, List.any_cons, List.filter_cons,
        Bool.false_eq_true]
      rw [ih]
      simp [h]

/-- Form of `scan_all` rewritten through `scan_all_foldl`. -/
theorem scan_all_eq (d : String) (scanners : List DependancyScanner) :
    scan_all d scanners =
      if scanners.any (fun sc => sc.canHandle d) then
        Except.ok (List.insertionSort entryLE (addNewEntries []
          (((scanners.filter (fun sc => sc.canHandle d)).map
             (fun sc => sc.scan d)).flatten)))
      else Except.error "Could not find a scanner that will handle this directory" := by
  simp only [scan_all]
  rw [scan_all_foldl]
  simp

theorem mem_of_mem_addNewEntries {e : LicenseReportEntry} :
    ∀ {l acc : List LicenseReportEntry}, e ∈ addNewEntries acc l → e ∈ acc ∨ e ∈ l := by
  intro l
  induction l with
  | nil => intro acc h; exact Or.inl h
  | cons item rest ih =>
    intro acc h
    simp only [addNewEntries, List.foldl_cons] at h
    rcases ih h with h' | h'
    · by_cases hany : acc.any (fun x => x.package == item.package) = true
      · rw [if_pos hany] at h'
        exact Or.inl h'
      · rw [if_neg hany] at h'
        rcases List.mem_append.mp h' with h'' | h''
        · exact Or.inl h''
        · exact Or.inr (List.mem_cons.mpr (Or.inl (List.mem_singleton.mp h'')))
    · exact Or.inr (List.mem_cons.mpr (Or.inr h'))

theorem mem_addNewEntries_of_mem {e : LicenseReportEntry} :
    ∀ {l acc : List LicenseReportEntry}, e ∈ acc → e ∈ addNewEntries acc l := by
  intro l
  induction l with
  | nil => intro acc h; exact h
  | cons item rest ih =>
    intro acc h
    simp only [addNewEntries, List.foldl_cons]
    apply ih
    by_cases hany : acc.any (fun x => x.package == item.package) = true
    · rw [if_pos hany]; exact h
    · rw [if_neg hany]; exact List.mem_append_left _ h

theorem pkg_mem_addNewEntries {e : LicenseReportEntry} :
    ∀ {l acc : List LicenseReportEntry}, e ∈ l →
      ∃ x ∈ addNewEntries acc l, x.package = e.package := by
  intro l
  induction l with
  | nil => intro acc h; cases h
  | cons item rest ih =>
    intro acc h
    simp only [addNewEntries, List.foldl_cons]
    rcases List.mem_cons.mp h with rfl | h'
    · by_cases hany : acc.any (fun x => x.package == e.package) = true
      · rcases List.any_eq_true.mp hany with ⟨x, hx, hpkg⟩
        exact ⟨x, mem_addNewEntries_of_mem (by rw [if_pos hany]; exact hx),
          by simpa using hpkg⟩
      · refine ⟨e, mem_addNewEntries_of_mem ?_, rfl⟩
        rw [if_neg hany]
        exact List.mem_append_right _ (List.mem_singleton.mpr rfl)
    · exact ih h'

theorem find?_addNewEntries (p : Option String) :
    ∀ (l acc : List LicenseReportEntry),
      (addNewEntries acc l).find? (fun x => x.package == p) =
        ((acc.find? (fun x => x.package == p)).or
          (l.find? (fun x => x.package == p))) := by
  intro l
  induction l with
  | nil => intro acc; simp [addNewEntries, Option.or_none]
  | cons item rest ih =>
    intro acc
    simp only [addNewEntries, List.foldl_cons]
    rw [show (List.foldl _ _ rest : List LicenseReportEntry) =
          addNewEntries (if acc.any (fun x => x.package == item.package) then acc
            else acc ++ [item]) rest from rfl, ih]
    by_cases hp : (item.package == p) = true
    · have hp' : item.package = p := by simpa using hp
      by_cases hany : acc.any (fun x => x.package == item.package) = true
      · rcases List.any_eq_true.mp hany with ⟨x, hx, hpkg⟩
        have : (acc.find? (fun x => x.package == p)).isSome := by
          rw [List.find?_isSome]
          exact ⟨x, hx, by rw [← hp']; exact hpkg⟩
        rcases Option.isSome_iff_exists.mp this with ⟨y, hy⟩
        rw [if_pos hany, hy]
        rfl
      · have hnone : acc.find? (fun x => x.package == p) = none := by
          rw [List.find?_eq_none]
          intro x hx hcontra
          exact hany (List.any_eq_true.mpr
            ⟨x, hx, by rw [hp']; exact hcontra⟩)
        rw [if_neg hany, hnone, List.find?_append, hnone]
        simp [hp]
    · by_cases hany : acc.any (fun x => x.package == item.package) = true
      · rw [if_pos hany]
        simp [hp]
      · rw [if_neg hany, List.find?_append]
        simp [hp]

theorem nodup_addNewEntries :
    ∀ (l acc : List LicenseReportEntry),
      (acc.map (fun e => e.package)).Nodup →
      ((addNewEntries acc l).map (fun e => e.package)).Nodup := by
  intro l
  induction l with
  | nil => intro acc h; exact h
  | cons item rest ih =>
    intro acc h
    simp only [addNewEntries, List.foldl_cons]
    by_cases hany : acc.any (fun x => x.package == item.package) = true
    · rw [if_pos hany]
      exact ih acc h
    · rw [if_neg hany]
      apply ih
      have hperm : ((acc ++ [item]).map (fun e => e.package)) =
          acc.map (fun e => e.package) ++ [item.package] := by simp
      rw [hperm]
      have : (acc.map (fun e => e.package) ++ [item.package]).Perm
          (item.package :: acc.map (fun e => e.package)) :=
        List.perm_append_singleton _ _
      refine this.nodup_iff.mpr (List.nodup_cons.mpr ⟨?_, h⟩)
      intro hmem
      rcases List.mem_map.mp hmem with ⟨x, hx, hpkg⟩
      exact hany (List.any_eq_true.mpr ⟨x, hx, by simp [hpkg]⟩)

theorem find?_of_nodup_keys :
    ∀ (l : List LicenseReportEntry),
      ((l.map (fun e => e.package)).Nodup) → ∀ e ∈ l,
        l.find? (fun x => x.package == e.package) = some e := by
  intro l
  induction l with
  | nil => intro _ e he; cases he
  | cons x xs ih =>
    intro hnd e he
    have hx : x.package ∉ xs.map (fun e => e.package) :=
      (List.nodup_cons.mp (by simpa using hnd)).1
    rcases List.mem_cons.mp he with rfl | he'
    · rw [List.find?_cons_of_pos]
      simp
    · have hne : ¬(x.package = e.package) := by
        intro hcontra
        exact hx (hcontra ▸ List.mem_map.mpr ⟨e, he', rfl⟩)
      rw [List.find?_cons_of_neg]
      · exact ih (List.nodup_cons.mp (by simpa using hnd)).2 e he'
      · simp [hne]

/-! ### Claim theorems about the scanner stage -/

/-- C7: on success, `scan_all` has consulted exactly the scanners whose
`can_handle` accepted the directory, and its result contains each
reported package exactly once, carried by the first entry that any
applicable scanner (in configured order) produced for that package. -/
theorem scan_all_merge_first_writer_wins (d : String)
    (scanners : List DependancyScanner) (r : List LicenseReportEntry)
    (h : scan_all d scanners = Except.ok r) :
    (r.map (fun e => e.package)).Nodup ∧
    (∀ e ∈ r,
      (((scanners.filter (fun sc => sc.canHandle d)).map
         (fun sc => sc.scan d)).flatten).find?
        (fun x => x.package == e.package) = some e) ∧
    (∀ e ∈ ((scanners.filter (fun sc => sc.canHandle d)).map
        (fun sc => sc.scan d)).flatten,
      ∃ x ∈ r, x.package = e.package) := by
  rw [scan_all_eq] at h
  by_cases hany : scanners.any (fun sc => sc.canHandle d) = true
  · rw [if_pos hany] at h
    injection h with h
    subst h
    have hperm : (List.insertionSort entryLE (addNewEntries []
        (((scanners.filter (fun sc => sc.canHandle d)).map
           (fun sc => sc.scan d)).flatten))).Perm
        (addNewEntries []
          (((scanners.filter (fun sc => sc.canHandle d)).map
             (fun sc => sc.scan d)).flatten)) :=
      List.perm_insertionSort entryLE _
    have hnd : ((addNewEntries []
        (((scanners.filter (fun sc => sc.canHandle d)).map
           (fun sc => sc.scan d)).flatten)).map (fun e => e.package)).Nodup :=
      nodup_addNewEntries _ [] (by simp)
    refine ⟨(hperm.map (fun e => e.package)).nodup_iff.mpr hnd, ?_, ?_⟩
    · intro e he
      have he' := hperm.mem_iff.mp he
      have := find?_of_nodup_keys _ hnd e he'
      rwa [find?_addNewEntries, List.find?_nil, Option.none_or] at this
    · intro e he
      rcases @pkg_mem_addNewEntries _ _ [] he with ⟨x, hx, hpkg⟩
      exact ⟨x, hperm.mem_iff.mpr hx, hpkg⟩
  · rw [if_neg hany] at h
    cases h

/-- C9: on success, `scan_all`'s result is sorted ascending by the package
string, so the output order does not depend on the order in which the
individual scanners emitted their entries. -/
theorem scan_all_sorted_by_package (d : String)
    (scanners : List DependancyScanner) (r : List LicenseReportEntry)
    (h : scan_all d scanners = Except.ok r) :
    r.Sorted entryLE := by
  rw [scan_all_eq] at h
  by_cases hany : scanners.any (fun sc => sc.canHandle d) = true
  · rw [if_pos hany] at h
    injection h with h
    rw [← h]
    exact List.sorted_insertionSort entryLE _
  · rw [if_neg hany] at h
    cases h

/-- A concrete scanner pair with overlapping outputs, for the witnesses:
both accept every directory; they disagree on package `a`. -/
def scannerA : DependancyScanner :=
  { canHandle := fun _ => true,
    scan := fun _ =>
      [ { package := some "b", dependancy_scanner_name := some "A" },
        { package := some "a", dependancy_scanner_name := some "A" } ] }

def scannerB : DependancyScanner :=
  { canHandle := fun _ => true,
    scan := fun _ =>
      [ { package := some "a", dependancy_scanner_name := some "B" },
        { package := some "c", dependancy_scanner_name := some "B" } ] }

/-- Witness for C7: scanner A reports packages `b, a`, scanner B reports
`a, c`; the merge keeps A's entry for the overlapping package `a` and
holds each package once. -/
theorem scan_all_merge_first_writer_wins_witness :
    scan_all "." [scannerA, scannerB] =
      Except.ok
        [ { package := some "a", dependancy_scanner_name := some "A" },
          { package := some "b", dependancy_scanner_name := some "A" },
          { package := some "c", dependancy_scanner_name := some "B" } ] ∧
    (([ { package := some "a", dependancy_scanner_name := some "A" },
        { package := some "b", dependancy_scanner_name := some "A" },
        { package := some "c", dependancy_scanner_name := some "B" } ] :
         List LicenseReportEntry).map (fun e => e.package)).Nodup ∧
    (∀ e ∈ ([ { package := some "a", dependancy_scanner_name := some "A" },
              { package := some "b", dependancy_scanner_name := some "A" },
              { package := some "c", dependancy_scanner_name := some "B" } ] :
         List LicenseReportEntry),
      ((([scannerA, scannerB].filter (fun sc => sc.canHandle ".")).map
         (fun sc => sc.scan ".")).flatten).find?
        (fun x => x.package == e.package) = some e) :=
  ⟨rfl,
    (scan_all_merge_first_writer_wins "." [scannerA, scannerB] _ rfl).1,
    (scan_all_merge_first_writer_wins "." [scannerA, scannerB] _ rfl).2.1⟩

/-- Witness for C9 at the same concrete input. -/
theorem scan_all_sorted_by_package_witness :
    scan_all "." [scannerA, scannerB] =
      Except.ok
        [ { package := some "a", dependancy_scanner_name := some "A" },
          { package := some "b", dependancy_scanner_name := some "A" },
          { package := some "c", dependancy_scanner_name := some "B" } ] ∧
    ([ { package := some "a", dependancy_scanner_name := some "A" },
       { package := some "b", dependancy_scanner_name := some "A" },
       { package := some "c", dependancy_scanner_name := some "B" } ] :
        List LicenseReportEntry).Sorted entryLE :=
  ⟨rfl, scan_all_sorted_by_package "." [scannerA, scannerB] _ rfl⟩

/-! ### Lemmas about the cache dictionaries -/

theorem assocGet_update_self (k : JVal) (v : JDict) :
    ∀ m, assocGet k (assocUpdate k v m) = some v := by
  intro m
  induction m with
  | nil => simp [assocUpdate, assocGet]
  | cons kv rest ih =>
    by_cases h : kv.1 = k
    · simp [assocUpdate, h, assocGet]
    · simpa [assocUpdate, h, assocGet] using ih

theorem assocGet_update_ne {k k' : JVal} (h : k' ≠ k) (v : JDict) :
    ∀ m, assocGet k (assocUpdate k' v m) = assocGet k m := by
  intro m
  induction m with
  | nil => simp [assocUpdate, assocGet, h]
  | cons kv rest ih =>
    obtain ⟨a, b⟩ := kv
    simp only [assocUpdate]
    by_cases h1 : a = k'
    · simp [h1, assocGet, h]
    · by_cases h2 : a = k <;> simp [h1, h2, assocGet, ih, Ne.symm h]

theorem mem_assocUpdate {p : JVal × JDict} {k : JVal} {v : JDict} :
    ∀ {m}, p ∈ assocUpdate k v m → p = (k, v) ∨ p ∈ m := by
  intro m
  induction m with
  | nil => intro h; simpa [assocUpdate] using h
  | cons kv rest ih =>
    intro h
    by_cases h1 : kv.1 = k
    · rw [assocUpdate, if_pos h1] at h
      rcases List.mem_cons.mp h with h' | h'
      · exact Or.inl h'
      · exact Or.inr (List.mem_cons.mpr (Or.inr h'))
    · rw [assocUpdate, if_neg h1] at h
      rcases List.mem_cons.mp h with h' | h'
      · exact Or.inr (List.mem_cons.mpr (Or.inl h'))
      · rcases ih h' with h'' | h''
        · exact Or.inl h''
        · exact Or.inr (List.mem_cons.mpr (Or.inr h''))

theorem assocGet_mem {k : JVal} {v : JDict} :
    ∀ {m}, assocGet k m = some v → (k, v) ∈ m := by
  intro m
  induction m with
  | nil => intro h; cases h
  | cons kv rest ih =>
    intro h
    obtain ⟨a, b⟩ := kv
    by_cases h1 : a = k
    · rw [show assocGet k ((a, b) :: rest) = some b from by
          rw [assocGet, if_pos h1]] at h
      injection h with h
      exact List.mem_cons.mpr (Or.inl (by rw [← h1, ← h]))
    · rw [show assocGet k ((a, b) :: rest) = assocGet k rest from by
          rw [assocGet, if_neg h1]] at h
      exact List.mem_cons.mpr (Or.inr (ih h))

theorem assocUpdate_keys (k : JVal) (v : JDict) :
    ∀ m, (assocUpdate k v m).map Prod.fst =
      if k ∈ m.map Prod.fst then m.map Prod.fst else m.map Prod.fst ++ [k] := by
  intro m
  induction m with
  | nil => simp [assocUpdate]
  | cons kv rest ih =>
    by_cases h1 : kv.1 = k
    · simp [assocUpdate, h1]
    · by_cases h2 : k ∈ rest.map Prod.fst <;>
        simp [assocUpdate, h1, Ne.symm h1, ih, h2]

theorem nodup_assocUpdate {k : JVal} {v : JDict} {m : List (JVal × JDict)}
    (h : (m.map Prod.fst).Nodup) : ((assocUpdate k v m).map Prod.fst).Nodup := by
  rw [assocUpdate_keys]
  by_cases hmem : k ∈ m.map Prod.fst
  · rwa [if_pos hmem]
  · rw [if_neg hmem]
    exact (List.perm_append_singleton _ _).nodup_iff.mpr
      (List.nodup_cons.mpr ⟨hmem, h⟩)

theorem foldIns_get_notmem {k : JVal} :
    ∀ (L : List (JVal × JDict)) m, k ∉ L.map Prod.fst →
      assocGet k (foldIns L m) = assocGet k m := by
  intro L
  induction L with
  | nil => intro m _; rfl
  | cons kv rest ih =>
    intro m h
    have h1 : kv.1 ≠ k := fun hc => h (List.mem_cons.mpr (Or.inl hc.symm))
    have h2 : k ∉ rest.map Prod.fst := fun hc => h (List.mem_cons.mpr (Or.inr hc))
    rw [show foldIns (kv :: rest) m = foldIns rest (assocUpdate kv.1 kv.2 m) from rfl,
      ih _ h2, assocGet_update_ne h1]

theorem foldIns_get {k : JVal} {v : JDict} :
    ∀ (L : List (JVal × JDict)) m, ((L.map Prod.fst).Nodup) → (k, v) ∈ L →
      assocGet k (foldIns L m) = some v := by
  intro L
  induction L with
  | nil => intro m _ hmem; cases hmem
  | cons kv rest ih =>
    intro m hnd hmem
    rw [List.map_cons] at hnd
    have hnd' := List.nodup_cons.mp hnd
    rw [show foldIns (kv :: rest) m = foldIns rest (assocUpdate kv.1 kv.2 m) from rfl]
    rcases List.mem_cons.mp hmem with rfl | h'
    · rw [foldIns_get_notmem rest _ hnd'.1, assocGet_update_self]
    · exact ih _ hnd'.2 h'

theorem foldIns_nodup_keys :
    ∀ (L : List (JVal × JDict)) m, ((m.map Prod.fst).Nodup) →
      ((foldIns L m).map Prod.fst).Nodup := by
  intro L
  induction L with
  | nil => intro m h; exact h
  | cons kv rest ih =>
    intro m h
    exact ih _ (nodup_assocUpdate h)

/-- The invariant the cache's dict maintains: every stored object sits
under its own `'package'` value as key (`write` keys by `entry.package`
and serializes that same value; the file loader keys by the object's own
`'package'` field). -/
def WellKeyed (m : List (JVal × JDict)) : Prop :=
  ∀ kd ∈ m, dictKey kd.2 = kd.1

instance (m : List (JVal × JDict)) : Decidable (WellKeyed m) :=
  inferInstanceAs (Decidable (∀ kd ∈ m, dictKey kd.2 = kd.1))

theorem wellKeyed_assocUpdate {k : JVal} {v : JDict} {m : List (JVal × JDict)}
    (hv : dictKey v = k) (h : WellKeyed m) : WellKeyed (assocUpdate k v m) := by
  intro p hp
  rcases mem_assocUpdate hp with rfl | hp'
  · exact hv
  · exact h p hp'

theorem wellKeyed_foldIns :
    ∀ (L : List (JVal × JDict)) m, (∀ kv ∈ L, dictKey kv.2 = kv.1) →
      WellKeyed m → WellKeyed (foldIns L m) := by
  intro L
  induction L with
  | nil => intro m _ h; exact h
  | cons kv rest ih =>
    intro m hL h
    exact ih _ (fun p hp => hL p (List.mem_cons.mpr (Or.inr hp)))
      (wellKeyed_assocUpdate (hL kv (List.mem_cons.mpr (Or.inl rfl))) h)

theorem dictKey_asdict (e : LicenseReportEntry) :
    dictKey (asdict e) = jval e.package := rfl

theorem writeAll_resolved :
    ∀ (entries : List LicenseReportEntry) (c : JsonFileLicenseCache),
      (writeAll entries c).resolved =
        foldIns (entries.map (fun e => (jval e.package, asdict e))) c.resolved := by
  intro entries
  induction entries with
  | nil => intro c; rfl
  | cons e rest ih =>
    intro c
    exact ih (c.write e)

theorem writeAll_hasChanged_of_true :
    ∀ (entries : List LicenseReportEntry) (c : JsonFileLicenseCache),
      c.hasChanged = true → (writeAll entries c).hasChanged = true := by
  intro entries
  induction entries with
  | nil => intro c h; exact h
  | cons e rest ih => intro c _; exact ih (c.write e) rfl

theorem writeAll_hasChanged {entries : List LicenseReportEntry}
    (h : entries ≠ []) (c : JsonFileLicenseCache) :
    (writeAll entries c).hasChanged = true := by
  cases entries with
  | nil => exact absurd rfl h
  | cons e rest => exact writeAll_hasChanged_of_true rest (c.write e) rfl

/-! ### Claim theorems about the cache -/

/-- C3 (evidence for a code bug): `JsonFileLicenseCache.write` succeeds on
an entry with no package set — the entry is stored under the `null` key,
the cache is marked dirty, and a later `read` of the `None` package even
returns it; no `InvalidEntryError` (which exists nowhere in the code) is
raised.  The second group shows the documented upsert behavior when the
package is set: a second write under the same package replaces the first
entry. -/
theorem cache_write_without_package_succeeds :
    (emptyCache.write {}).resolved = [(JVal.null, asdict {})] ∧
    (emptyCache.write {}).hasChanged = true ∧
    (emptyCache.write {}).read none = some {} ∧
    ((emptyCache.write { package := some "p", license_name := some "A" }).write
        { package := some "p", license_name := some "B" }).resolved =
      [(JVal.str "p", asdict { package := some "p", license_name := some "B" })] ∧
    ((emptyCache.write { package := some "p", license_name := some "A" }).write
        { package := some "p", license_name := some "B" }).read (some "p") =
      some { package := some "p", license_name := some "B" } :=
  ⟨rfl, rfl, by decide, rfl, by decide⟩

/-- C8: the cache round trip.  Writing entries with pairwise-distinct set
packages into a fresh cache, flushing via `update_cache_file`, and
rebuilding a cache from the written file reproduces every written entry
exactly on `read` — set fields keep their values and never-set fields
are still absent (`read` returns the entry itself, `None`s included). -/
theorem cache_round_trip (entries : List LicenseReportEntry)
    (hnd : (entries.map (fun e => e.package)).Nodup)
    (_hsome : ∀ e ∈ entries, e.package.isSome = true)
    (e : LicenseReportEntry) (he : e ∈ entries) :
    (JsonFileLicenseCache.fromFile
      ((writeAll entries emptyCache).update_cache_file).2).read e.package =
      some e := by
  have hres : (writeAll entries emptyCache).resolved =
      foldIns (entries.map (fun x => (jval x.package, asdict x))) [] :=
    writeAll_resolved entries emptyCache
  have hkeys : ((entries.map (fun x => (jval x.package, asdict x))).map
      Prod.fst).Nodup := by
    have : (entries.map (fun x => (jval x.package, asdict x))).map Prod.fst =
        (entries.map (fun x => x.package)).map jval := by
      simp [List.map_map]
    rw [this]
    exact hnd.map jval_injective
  have hchanged : (writeAll entries emptyCache).hasChanged = true :=
    writeAll_hasChanged (List.ne_nil_of_mem he) emptyCache
  have hfile : ((writeAll entries emptyCache).update_cache_file).2 =
      some (List.insertionSort dictLE
        ((foldIns (entries.map (fun x => (jval x.package, asdict x))) []).map
          Prod.snd)) := by
    simp [JsonFileLicenseCache.update_cache_file, hchanged, hres]
  have hget : assocGet (jval e.package)
      (foldIns (entries.map (fun x => (jval x.package, asdict x))) []) =
      some (asdict e) :=
    foldIns_get _ [] hkeys (List.mem_map.mpr ⟨e, he, rfl⟩)
  have hwk : WellKeyed
      (foldIns (entries.map (fun x => (jval x.package, asdict x))) []) := by
    refine wellKeyed_foldIns _ [] ?_ (fun p hp => absurd hp (List.not_mem_nil p))
    intro kv hkv
    rcases List.mem_map.mp hkv with ⟨x, _, rfl⟩
    exact dictKey_asdict x
  have hperm : (List.insertionSort dictLE
      ((foldIns (entries.map (fun x => (jval x.package, asdict x))) []).map
        Prod.snd)).Perm
      ((foldIns (entries.map (fun x => (jval x.package, asdict x))) []).map
        Prod.snd) :=
    List.perm_insertionSort dictLE _
  have hmemF : asdict e ∈ List.insertionSort dictLE
      ((foldIns (entries.map (fun x => (jval x.package, asdict x))) []).map
        Prod.snd) :=
    hperm.mem_iff.mpr (List.mem_map.mpr ⟨_, assocGet_mem hget, rfl⟩)
  have hkeysF : ((List.insertionSort dictLE
      ((foldIns (entries.map (fun x => (jval x.package, asdict x))) []).map
        Prod.snd)).map dictKey).Nodup := by
    refine (hperm.map dictKey).nodup_iff.mpr ?_
    have hmapeq : ((foldIns (entries.map (fun x => (jval x.package, asdict x))) []).map
        Prod.snd).map dictKey =
        (foldIns (entries.map (fun x => (jval x.package, asdict x))) []).map
          Prod.fst := by
      rw [List.map_map]
      exact List.map_congr_left (fun kd hkd => hwk kd hkd)
    rw [hmapeq]
    exact foldIns_nodup_keys _ [] (by simp)
  have hget2 : assocGet (jval e.package)
      (foldIns ((List.insertionSort dictLE
        ((foldIns (entries.map (fun x => (jval x.package, asdict x))) []).map
          Prod.snd)).map (fun d => (dictKey d, d))) []) = some (asdict e) := by
    refine foldIns_get _ [] ?_ ?_
    · rw [show ((List.insertionSort dictLE
          ((foldIns (entries.map (fun x => (jval x.package, asdict x))) []).map
            Prod.snd)).map (fun d => (dictKey d, d))).map Prod.fst =
          (List.insertionSort dictLE
            ((foldIns (entries.map (fun x => (jval x.package, asdict x))) []).map
              Prod.snd)).map dictKey from by rw [List.map_map]; rfl]
      exact hkeysF
    · rw [show ((jval e.package, asdict e) : JVal × JDict) =
          (dictKey (asdict e), asdict e) from by rw [dictKey_asdict]]
      exact List.mem_map.mpr ⟨asdict e, hmemF, rfl⟩
  rw [hfile]
  show JsonFileLicenseCache.read _ e.package = some e
  rw [JsonFileLicenseCache.read]
  rw [show (JsonFileLicenseCache.fromFile (some (List.insertionSort dictLE
      ((foldIns (entries.map (fun x => (jval x.package, asdict x))) []).map
        Prod.snd)))).resolved =
      foldIns ((List.insertionSort dictLE
        ((foldIns (entries.map (fun x => (jval x.package, asdict x))) []).map
          Prod.snd)).map (fun d => (dictKey d, d))) [] from rfl]
  rw [hget2]
  exact fromDict_asdict e

/-- Witness for C8: two entries with distinct packages, one with a mix of
set and absent fields, survive the write-flush-reload round trip. -/
theorem cache_round_trip_witness :
    (([ { package := some "p1", license_name := some "MIT" },
        { package := some "p2" } ] :
        List LicenseReportEntry).map (fun e => e.package)).Nodup ∧
    (∀ e ∈ ([ { package := some "p1", license_name := some "MIT" },
              { package := some "p2" } ] : List LicenseReportEntry),
      e.package.isSome = true) ∧
    (JsonFileLicenseCache.fromFile
      ((writeAll [ { package := some "p1", license_name := some "MIT" },
                   { package := some "p2" } ] emptyCache).update_cache_file).2).read
        (some "p1") =
      some { package := some "p1", license_name := some "MIT" } :=
  ⟨by decide, by decide,
    cache_round_trip
      [ { package := some "p1", license_name := some "MIT" },
        { package := some "p2" } ]
      (by decide) (by decide)
      { package := some "p1", license_name := some "MIT" } (by decide)⟩

/-! ### Recognizers (`recognizers.py`) -/

/-- Embedding of `Recognizer._set_from_cache` (`recognizers.py` lines 66-73): with a
cache present and a cached entry for `entry.package` whose `license_name`
is not `None`, the entry's whole `__dict__` is replaced by a copy of the
cached entry's; the hit is reported. -/
def setFromCache (cache : Option JsonFileLicenseCache) (e : LicenseReportEntry) :
    Option LicenseReportEntry :=
  match cache with
  | none => none
  | some c =>
    match c.read e.package with
    | none => none
    | some ce => if ce.license_name.isSome then some ce else none

/-- Embedding of `Recognizer._save_to_cache` (`recognizers.py` lines 75-77). -/
def saveToCache (cache : Option JsonFileLicenseCache) (e : LicenseReportEntry) :
    Option JsonFileLicenseCache :=
  match cache with
  | none => none
  | some c => some (c.write e)

/-- Embedding of `Recognizer.recognize` (`recognizers.py` lines 47-64), generic over
the subclass's `do_recognize` (modelled as a function from the entry to
the success flag and the updated entry): a cache hit short-circuits
everything else, otherwise `do_recognize` runs and a success is written
back to the cache.  The result carries the flag, the entry's final state
and the cache's final state. -/
def recognize (doRec : LicenseReportEntry → Bool × LicenseReportEntry)
    (cache : Option JsonFileLicenseCache) (e : LicenseReportEntry) :
    Bool × LicenseReportEntry × Option JsonFileLicenseCache :=
  match setFromCache cache e with
  | some ce => (true, ce, cache)
  | none =>
    let r := doRec e
    if r.1 then (true, r.2, saveToCache cache r.2) else (false, r.2, cache)

/-- Python `package.split("/")`, on the character list: split at every
slash, keeping empty segments (so the empty string gives `[""]`). -/
def splitSlash : List Char → List (List Char)
  | [] => [[]]
  | c :: rest =>
    if c = '/' then [] :: splitSlash rest
    else
      match splitSlash rest with
      | [] => [[c]]
      | w :: ws => (c :: w) :: ws

/-- Embedding of `entry.package.split("/")` as a list of strings. -/
def pkgSegments (s : String) : List String :=
  (splitSlash s.data).map (fun cs => { data := cs })

/-- The parsed body of GitHub's rate-limit response:
`resources.core.remaining` and `resources.core.reset`. -/
structure RateLimitBody where
  remaining : Nat
  reset : Nat
deriving DecidableEq

/-- The parsed body of GitHub's license response: `license.name`,
`download_url` and `content`. -/
structure LicenseBody where
  name : String
  downloadUrl : String
  content : String
deriving DecidableEq

/-- Outcome of one `requests.get`: a response (status code plus parsed
body) or a raised `ConnectionError`. -/
inductive NetResult (α : Type) where
  | ok : Nat → α → NetResult α
  | connError : NetResult α
deriving DecidableEq

/-- The external world a `GitHubRecognizer` call sees: the rate-limit
response, the license-endpoint response, and the formatted current time
used for `license_recognized_at`. -/
structure GitHubWorld where
  rateLimit : NetResult RateLimitBody
  license : NetResult LicenseBody
  now : String
deriving DecidableEq

/-- Levels of the log records the recognizer emits. -/
inductive LogLevel where
  | debug
  | info
  | warning
  | error
  | critical
deriving DecidableEq

/-- Embedding of `_is_ok_response` (`recognizers.py` lines 165-167). -/
def isOkResponse (status : Nat) : Bool :=
  decide (200 ≤ status) && decide (status < 300)

/-- Embedding of `GitHubRecognizer._can_call_github` (`recognizers.py` lines 145-155):
a `ConnectionError` of this `requests.get` is NOT caught and propagates;
an OK response showing zero remaining quota logs a critical record and
forbids the call; any other response (including a non-2xx one) allows
it. -/
def canCallGitHub (w : GitHubWorld) : Except Unit (Bool × List LogLevel) :=
  match w.rateLimit with
  | NetResult.connError => Except.error ()
  | NetResult.ok status body =>
    if isOkResponse status then
      if body.remaining = 0 then Except.ok (false, [LogLevel.critical])
      else Except.ok (true, [])
    else Except.ok (true, [])

/-- Embedding of `GitHubRecognizer._init_entry` (`recognizers.py` lines 157-163). -/
def initEntry (w : GitHubWorld) (e : LicenseReportEntry) : LicenseReportEntry :=
  { e with license_name := none, license_url := none, license_encoded := none,
           license_recognized_at := some w.now,
           license_recognizer_name := some "GitHubRecognizer" }

/-- Embedding of `GitHubRecognizer._fill_license_for_github` (`recognizers.py` lines
129-143): the entry is first re-initialized; an OK response fills the
license fields; a non-2xx response or a caught `ConnectionError` only
logs an error and leaves the re-initialized entry as is. -/
def fillLicenseForGitHub (w : GitHubWorld) (e : LicenseReportEntry) :
    LicenseReportEntry × List LogLevel :=
  let e0 := initEntry w e
  match w.license with
  | NetResult.connError => (e0, [LogLevel.error])
  | NetResult.ok status body =>
    if isOkResponse status then
      ({ e0 with
          license_name := some body.name,
          license_url := some body.downloadUrl,
          license_encoded := some body.content }, [])
    else (e0, [LogLevel.error])

/-- Embedding of `GitHubRecognizer.do_recognize` (`recognizers.py` lines 118-127):
only packages of the exact shape `github.com/<owner>/<project>` are
handled; the rate-limit gate may forbid the lookup (non-recognition);
otherwise `_fill_license_for_github` runs and `True` is returned —
whatever happened inside it. -/
def gitHubDoRecognize (w : GitHubWorld) (e : LicenseReportEntry) :
    Except Unit (Bool × LicenseReportEntry × List LogLevel) :=
  match pkgSegments (e.package.getD "") with
  | [host, _owner, _project] =>
    if host = "github.com" then
      match canCallGitHub w with
      | Except.error u => Except.error u
      | Except.ok (canCall, logs) =>
        if canCall then
          Except.ok (true, (fillLicenseForGitHub w e).1,
            logs ++ (fillLicenseForGitHub w e).2)
        else Except.ok (false, e, logs)
    else Except.ok (false, e, [])
  | _ => Except.ok (false, e, [])

/-- Embedding of `Recognizer.recognize` as it runs for a `GitHubRecognizer`: the cache
check first, then `do_recognize` (whose propagated exception passes
through), a success being saved to the cache after a debug log. -/
def gitHubRecognize (w : GitHubWorld) (cache : Option JsonFileLicenseCache)
    (e : LicenseReportEntry) :
    Except Unit
      (Bool × LicenseReportEntry × Option JsonFileLicenseCache × List LogLevel) :=
  match setFromCache cache e with
  | some ce => Except.ok (true, ce, cache, [LogLevel.debug])
  | none =>
    match gitHubDoRecognize w e with
    | Except.error u => Except.error u
    | Except.ok (ok, e', logs) =>
      if ok then
        Except.ok (true, e', saveToCache cache e', logs ++ [LogLevel.debug])
      else Except.ok (false, e', cache, logs)

/-! ### Claim theorems about the recognizer stage -/

/-- In a well-keyed cache, the entry `read` returns for a package carries
that package itself (`write` keys by the entry's own package and the file
loader keys each object by its own `'package'` field). -/
theorem read_package_eq {c : JsonFileLicenseCache} {p : Option String}
    {ce : LicenseReportEntry} (hwk : WellKeyed c.resolved)
    (hread : c.read p = some ce) : ce.package = p := by
  rw [JsonFileLicenseCache.read] at hread
  cases hget : assocGet (jval p) c.resolved with
  | none => rw [hget] at hread; cases hread
  | some dd =>
    rw [hget] at hread
    have hk : dictKey dd = jval p := hwk (jval p, dd) (assocGet_mem hget)
    simp only [fromDict] at hread
    by_cases hall : dd.all (fun kv => kv.1 ∈ entryFields) = true
    · rw [if_pos hall] at hread
      injection hread with hread
      rw [← hread]
      show optOfJ (dictGet dd "package") = p
      rw [dictKey] at hk
      cases hdg : dictGet dd "package" with
      | none =>
        rw [hdg] at hk
        simp only [Option.getD_none] at hk
        cases hp : p with
        | none => rfl
        | some s => rw [hp] at hk; simp [jval] at hk
      | some jv =>
        rw [hdg] at hk
        simp only [Option.getD_some] at hk
        rw [hk]
        exact optOfJ_jval p
    · rw [if_neg hall] at hread
      cases hread

/-- C5: a cache hit short-circuits recognition.  If the cache holds an
entry for the package with a (nonempty) license name, `recognize` copies
the cached entry wholesale and reports success, for ANY `do_recognize`
(so the recognizer logic is never consulted); and a second recognition of
the resulting entry returns the very same entry again — all license
fields, `license_recognizer_name` and `license_recognized_at` included —
and leaves the cache untouched both times. -/
theorem recognize_cache_hit_idempotent
    (d₁ d₂ : LicenseReportEntry → Bool × LicenseReportEntry)
    (c : JsonFileLicenseCache) (e ce : LicenseReportEntry) (s : String)
    (hwk : WellKeyed c.resolved)
    (hread : c.read e.package = some ce)
    (hname : ce.license_name = some s) (_hs : s ≠ "") :
    recognize d₁ (some c) e = (true, ce, some c) ∧
    recognize d₂ (some c) ce = (true, ce, some c) := by
  have hpkg : ce.package = e.package := read_package_eq hwk hread
  have h1 : setFromCache (some c) e = some ce := by
    simp [setFromCache, hread, hname]
  have h2 : setFromCache (some c) ce = some ce := by
    simp [setFromCache, hpkg, hread, hname]
  constructor <;> simp [recognize, h1, h2]

/-- Concrete cache content for the C5 witness. -/
def cachedEntryW : LicenseReportEntry :=
  { package := some "p", license_name := some "MIT" }

def cacheW : JsonFileLicenseCache :=
  { resolved := [(JVal.str "p", asdict cachedEntryW)], hasChanged := false }

/-- A `do_recognize` stub that would fail if it were ever consulted. -/
def doRecStub (e : LicenseReportEntry) : Bool × LicenseReportEntry := (false, e)

/-- Witness for C5: with `MIT` cached for package `p`, both the first and
the second recognition of the entry return the cached entry and leave the
cache as it was. -/
theorem recognize_cache_hit_idempotent_witness :
    WellKeyed cacheW.resolved ∧
    cacheW.read (({ package := some "p" } : LicenseReportEntry).package) =
      some cachedEntryW ∧
    recognize doRecStub (some cacheW) { package := some "p" } =
      (true, cachedEntryW, some cacheW) ∧
    recognize doRecStub (some cacheW) cachedEntryW =
      (true, cachedEntryW, some cacheW) :=
  ⟨by decide, by decide,
    (recognize_cache_hit_idempotent doRecStub doRecStub cacheW
      { package := some "p" } cachedEntryW "MIT"
      (by decide) (by decide) rfl (by decide)).1,
    (recognize_cache_hit_idempotent doRecStub doRecStub cacheW
      { package := some "p" } cachedEntryW "MIT"
      (by decide) (by decide) rfl (by decide)).2⟩

/-- Whether an `Except` result is a normal return (no exception
propagated to the caller). -/
def exceptIsOk {ε α : Type} : Except ε α → Bool
  | Except.ok _ => true
  | Except.error _ => false

/-- The applicability test of the GitHub recognizer: the package splits
on `/` into exactly three segments, the first being `github.com`. -/
def isGitHubShape (p : String) : Bool :=
  match pkgSegments p with
  | [host, _, _] => host = "github.com"
  | _ => false

theorem gitHubDoRecognize_not_shape {w : GitHubWorld} {e : LicenseReportEntry}
    (h : isGitHubShape (e.package.getD "") = false) :
    gitHubDoRecognize w e = Except.ok (false, e, []) := by
  rcases hseg : pkgSegments (e.package.getD "") with _ | ⟨h1, _ | ⟨h2, _ | ⟨h3, _ | ⟨h4, t⟩⟩⟩⟩
  · simp [gitHubDoRecognize, hseg]
  · simp [gitHubDoRecognize, hseg]
  · simp [gitHubDoRecognize, hseg]
  · have h' : ¬(h1 = "github.com") := by simpa [isGitHubShape, hseg] using h
    simp [gitHubDoRecognize, hseg, h']
  · simp [gitHubDoRecognize, hseg]

theorem isGitHubShape_eq_true {p : String} (h : isGitHubShape p = true) :
    ∃ o pr, pkgSegments p = ["github.com", o, pr] := by
  rcases hseg : pkgSegments p with _ | ⟨h1, _ | ⟨h2, _ | ⟨h3, _ | ⟨h4, t⟩⟩⟩⟩
  · simp [isGitHubShape, hseg] at h
  · simp [isGitHubShape, hseg] at h
  · simp [isGitHubShape, hseg] at h
  · have h' : h1 = "github.com" := by simpa [isGitHubShape, hseg] using h
    exact ⟨h2, h3, by rw [h']⟩
  · simp [isGitHubShape, hseg] at h

/-- Helper for C2: with a rate-limit response present (the one spot whose
`requests.get` may itself raise is assumed answered), `do_recognize`
never propagates an exception. -/
theorem gitHubDoRecognize_isOk (w : GitHubWorld) (e : LicenseReportEntry)
    (status : Nat) (body : RateLimitBody)
    (hrl : w.rateLimit = NetResult.ok status body) :
    exceptIsOk (gitHubDoRecognize w e) = true := by
  by_cases hshape : isGitHubShape (e.package.getD "") = true
  · obtain ⟨o, pr, hseg⟩ := isGitHubShape_eq_true hshape
    have hcc : ∃ cc logs, canCallGitHub w = Except.ok (cc, logs) := by
      rw [canCallGitHub, hrl]
      by_cases hok : isOkResponse status = true
      · by_cases hrem : body.remaining = 0
        · exact ⟨false, [LogLevel.critical], by simp [hok, hrem]⟩
        · exact ⟨true, [], by simp [hok, hrem]⟩
      · exact ⟨true, [], by simp [hok]⟩
    obtain ⟨cc, logs, hcc⟩ := hcc
    cases cc <;> simp [gitHubDoRecognize, hseg, hcc, exceptIsOk]
  · rw [gitHubDoRecognize_not_shape (Bool.not_eq_true _ ▸ hshape)]
    rfl

/-- C2 (amended): the GitHub recognizer is applicable only to packages of
the 3-segment `github.com/<owner>/<project>` shape; an exhausted rate
limit (OK response, zero remaining) logs a critical record and yields
non-recognition, for every call made while the quota reads zero; a
`ConnectionError` of the license lookup itself is caught — never
propagated, never fatal — but `do_recognize` then still returns success,
with the entry re-initialized and its license fields left unset. -/
theorem github_recognizer_degradation (w : GitHubWorld) (e : LicenseReportEntry)
    (status : Nat) (body : RateLimitBody)
    (hrl : w.rateLimit = NetResult.ok status body) :
    (isGitHubShape (e.package.getD "") = false →
      gitHubDoRecognize w e = Except.ok (false, e, [])) ∧
    (isGitHubShape (e.package.getD "") = true →
      isOkResponse status = true → body.remaining = 0 →
      gitHubDoRecognize w e = Except.ok (false, e, [LogLevel.critical])) ∧
    (isGitHubShape (e.package.getD "") = true →
      (isOkResponse status = true → body.remaining ≠ 0) →
      w.license = NetResult.connError →
      gitHubDoRecognize w e = Except.ok (true, initEntry w e, [LogLevel.error])) ∧
    exceptIsOk (gitHubDoRecognize w e) = true := by
  refine ⟨?_, ?_, ?_, gitHubDoRecognize_isOk w e status body hrl⟩
  · intro h
    exact gitHubDoRecognize_not_shape h
  · intro hshape hok hrem
    obtain ⟨o, pr, hseg⟩ := isGitHubShape_eq_true hshape
    have hcc : canCallGitHub w = Except.ok (false, [LogLevel.critical]) := by
      simp [canCallGitHub, hrl, hok, hrem]
    simp [gitHubDoRecognize, hseg, hcc]
  · intro hshape hrem hlic
    obtain ⟨o, pr, hseg⟩ := isGitHubShape_eq_true hshape
    have hcc : canCallGitHub w = Except.ok (true, []) := by
      rw [canCallGitHub, hrl]
      by_cases hok : isOkResponse status = true
      · simp [hok, hrem hok]
      · simp [hok]
    simp [gitHubDoRecognize, hseg, hcc, fillLicenseForGitHub, hlic]

/-- The world of the C2 counterexample: the rate-limit endpoint answers
OK with plenty of quota; the license lookup raises `ConnectionError`. -/
def connErrWorld : GitHubWorld :=
  { rateLimit := NetResult.ok 200 { remaining := 5000, reset := 0 },
    license := NetResult.connError,
    now := "t0" }

def ghEntry : LicenseReportEntry := { package := some "github.com/a/b" }

/-- Counterexample to C2 as stated: with a connection error during the
license lookup, `recognize` (no cache) reports SUCCESS — the result flag
is `true`, not the non-recognition the claim asserts — the entry keeping
provenance fields but no license. -/
theorem github_connection_error_reports_success :
    gitHubRecognize connErrWorld none ghEntry =
      Except.ok (true,
        { package := some "github.com/a/b",
          license_recognized_at := some "t0",
          license_recognizer_name := some "GitHubRecognizer" },
        none, [LogLevel.error, LogLevel.debug]) := rfl

/-- Witness for the amended C2 at the counterexample world: the package
has the GitHub shape, the quota is not exhausted, the lookup raises, and
`do_recognize` returns success with the re-initialized entry. -/
theorem github_recognizer_degradation_witness :
    connErrWorld.rateLimit =
      NetResult.ok 200 { remaining := 5000, reset := 0 } ∧
    isGitHubShape (ghEntry.package.getD "") = true ∧
    connErrWorld.license = NetResult.connError ∧
    gitHubDoRecognize connErrWorld ghEntry =
      Except.ok (true, initEntry connErrWorld ghEntry, [LogLevel.error]) :=
  ⟨rfl, rfl, rfl,
    (github_recognizer_degradation connErrWorld ghEntry 200
        { remaining := 5000, reset := 0 } rfl).2.2.1
      rfl (fun _ => by decide) rfl⟩

end LicenseScanner
